import Mathlib

/-!
Verification of the `operators` lint group (`clippy_lints/src/operators/mod.rs`).

The repository provides `mod.rs` (the lint declarations, including the
BAD_BIT_MASK decision table in its documentation, and the `LateLintPass`
dispatcher for `Operators`).  The sub-module files
(`absurd_extreme_comparisons.rs`, `bit_mask.rs`, `verbose_bit_mask.rs`,
`double_comparison.rs`, `assign_op_pattern.rs`, `misrefactored_assign_op.rs`,
`numeric_arithmetic.rs`) are not part of the sources; each of the
corresponding definitions below is modelled from the specification and is
marked as such in its doc comment.
-/

namespace ClippyOperators

/-- A fixed-width integer type: bit width and signedness (spec §3,
`TypeDescriptor`). -/
structure IntTy where
  bits : Nat
  signed : Bool
deriving DecidableEq

/-- Minimum representable value of a fixed-width integer type. -/
def IntTy.minVal (t : IntTy) : Int :=
  if t.signed then -(2 ^ (t.bits - 1)) else 0

/-- Maximum representable value of a fixed-width integer type. -/
def IntTy.maxVal (t : IntTy) : Int :=
  if t.signed then 2 ^ (t.bits - 1) - 1 else 2 ^ t.bits - 1

/-- Resolved type descriptor of an expression (spec §3): integer,
floating-point, boolean, or unresolved. -/
inductive Ty
  | int (t : IntTy)
  | float
  | boolean
  | unresolved
deriving DecidableEq

/-- The statically known bounds of a type, when it has any: integers use
their representable range, and boolean is treated as a 1-bit unsigned
integer with bounds 0..1 (spec §4.2).  `none` for float and unresolved
types, which makes every bounds-based rule skip silently. -/
def Ty.bounds : Ty → Option (Int × Int)
  | .int t => some (t.minVal, t.maxVal)
  | .boolean => some (0, 1)
  | _ => none

/-- Binary operator tags, mirroring `rustc_hir::BinOpKind` as used by
`check_expr` in mod.rs: arithmetic, bitwise, relational and lazy boolean
operators. -/
inductive BinOp
  | add | sub | mul | div | rem | shl | shr
  | bitAnd | bitOr | bitXor
  | eq | ne | lt | le | gt | ge
  | land | lor
deriving DecidableEq

/-- The relational (comparison) operators. -/
def BinOp.isCmp : BinOp → Bool
  | .eq | .ne | .lt | .le | .gt | .ge => true
  | _ => false

/-- Per-node resolved facts: a node identifier (stable within one traversal,
mirroring `HirId`), the resolved type, and whether the node's span
originates from macro expansion (`span.from_expansion()` in mod.rs). -/
structure NodeInfo where
  id : Nat
  ty : Ty
  fromExpansion : Bool
deriving DecidableEq

/-- The typed expression tree the engine queries (spec §3,
`ExpressionNode`), restricted to the node shapes `Operators::check_expr`
in mod.rs dispatches on: literals, paths, binary operations, assignments,
compound assignments and unary negation. -/
inductive Expr
  | lit (info : NodeInfo) (v : Int)
  | pathVar (info : NodeInfo) (name : Nat)
  | binary (info : NodeInfo) (op : BinOp) (lhs rhs : Expr)
  | assign (info : NodeInfo) (lhs rhs : Expr)
  | assignOp (info : NodeInfo) (op : BinOp) (lhs rhs : Expr)
  | unaryNeg (info : NodeInfo) (arg : Expr)
deriving DecidableEq

/-- The per-node resolved facts of an expression. -/
def Expr.info : Expr → NodeInfo
  | .lit i _ => i
  | .pathVar i _ => i
  | .binary i _ _ _ => i
  | .assign i _ _ => i
  | .assignOp i _ _ _ => i
  | .unaryNeg i _ => i

/-- The resolved type of an expression. -/
def Expr.ty (e : Expr) : Ty := e.info.ty

/-- The node identifier of an expression. -/
def Expr.nodeId (e : Expr) : Nat := e.info.id

theorem ty_lit (i : NodeInfo) (v : Int) : (Expr.lit i v).ty = i.ty := rfl

theorem ty_pathVar (i : NodeInfo) (n : Nat) : (Expr.pathVar i n).ty = i.ty := rfl

/-- Syntactic (structural) equality of expressions, ignoring node
identifiers, spans and other per-node metadata: same shape, same operators,
same literal values, same paths.  This is the "exact structural equality of
the repeated operand" relation of spec §4.6 and the operand matching of
§4.5. -/
def structEq : Expr → Expr → Bool
  | .lit _ v, .lit _ w => v == w
  | .pathVar _ a, .pathVar _ b => a == b
  | .binary _ o1 l1 r1, .binary _ o2 l2 r2 =>
      o1 == o2 && structEq l1 l2 && structEq r1 r2
  | .assign _ l1 r1, .assign _ l2 r2 => structEq l1 l2 && structEq r1 r2
  | .assignOp _ o1 l1 r1, .assignOp _ o2 l2 r2 =>
      o1 == o2 && structEq l1 l2 && structEq r1 r2
  | .unaryNeg _ a1, .unaryNeg _ a2 => structEq a1 a2
  | _, _ => false

/-- The statically known constant value of an expression (spec §3,
`ConstantValue`): only literals and trivially-foldable unary-negated
literals count; general constant propagation is out of scope. -/
def constValue : Expr → Option Int
  | .lit _ v => some v
  | .unaryNeg _ (.lit _ v) => some (-v)
  | _ => none

/-- The rules (lints) registered by `impl_lint_pass!(Operators => [...])`
in mod.rs. -/
inductive Rule
  | absurdExtremeComparisons
  | integerArithmetic
  | floatArithmetic
  | assignOpPattern
  | misrefactoredAssignOp
  | badBitMask
  | ineffectiveBitMask
  | verboseBitMask
  | doubleComparisons
deriving DecidableEq

/-- A diagnostic record (spec §3): which rule fired and the offending
node. -/
structure Diagnostic where
  rule : Rule
  nodeId : Nat
deriving DecidableEq

/-- Severity tiers (spec §3); each rule's tier is the lint group named in
its `declare_clippy_lint!` block in mod.rs. -/
inductive Severity
  | correctness
  | suspicious
  | style
  | complexity
  | pedantic
  | restriction
deriving DecidableEq

/-- The severity tier of each rule, from the `declare_clippy_lint!` blocks
in mod.rs. -/
def Rule.severity : Rule → Severity
  | .absurdExtremeComparisons => .correctness
  | .integerArithmetic => .restriction
  | .floatArithmetic => .restriction
  | .assignOpPattern => .style
  | .misrefactoredAssignOp => .suspicious
  | .badBitMask => .correctness
  | .ineffectiveBitMask => .correctness
  | .verboseBitMask => .pedantic
  | .doubleComparisons => .complexity

/-! ### Reference semantics of the operators on literal bit patterns

Used to state that a verdict "agrees with direct evaluation" (spec §8).
Bit patterns of an unsigned operand are natural numbers. -/

/-- Direct evaluation of a bitwise operator on unsigned bit patterns.
Returns 0 for non-bitwise operators; only ever used at `bitAnd`, `bitOr`
and `bitXor`. -/
def evalBitOpNat (op : BinOp) (x m : Nat) : Nat :=
  match op with
  | .bitAnd => x &&& m
  | .bitOr => x ||| m
  | .bitXor => x ^^^ m
  | _ => 0

/-- Direct evaluation of a relational operator on unsigned bit patterns.
Returns `false` for non-relational operators; only ever used at the six
comparison operators. -/
def evalCmpNat (op : BinOp) (a b : Nat) : Bool :=
  match op with
  | .eq => decide (a = b)
  | .ne => decide (a ≠ b)
  | .lt => decide (a < b)
  | .le => decide (a ≤ b)
  | .gt => decide (b < a)
  | .ge => decide (b ≤ a)
  | _ => false

/-- Direct evaluation of a relational operator on integer values.
Returns `false` for non-relational operators. -/
def evalRelInt (op : BinOp) (a b : Int) : Bool :=
  match op with
  | .eq => decide (a = b)
  | .ne => decide (a ≠ b)
  | .lt => decide (a < b)
  | .le => decide (a ≤ b)
  | .gt => decide (b < a)
  | .ge => decide (b ≤ a)
  | _ => false

/-- Whether a natural number is a power of two (an executable test, used by
the ineffective-mask and verbose-mask rules): nonzero, and clearing the
lowest set bit leaves nothing. -/
def isPow2 (n : Nat) : Bool :=
  n != 0 && (n &&& (n - 1)) == 0

/-! ### Bit-mask truth-table evaluator (spec §4.3) -/

/-- The BAD_BIT_MASK decision table, from the table in the lint's
documentation in mod.rs (spec §4.3.1).  For a comparison
`operand BITOP mask CMPOP constant` over literal bit patterns `m` and `c`,
returns `some v` when the comparison is the constant `v` for every operand
value, `none` when the table draws no conclusion.  Each documented row
covers an operator and its negation, so the verdict for `!=`, `>=` and
`<=` is the negation of the row's verdict for `==`, `<` and `>`. -/
def bad_bit_mask_verdict (bit cmp : BinOp) (m c : Nat) : Option Bool :=
  match bit, cmp with
  | .bitAnd, .eq => if c &&& m != c then some false else none
  | .bitAnd, .ne => if c &&& m != c then some true else none
  | .bitAnd, .lt => if m < c then some true else none
  | .bitAnd, .ge => if m < c then some false else none
  | .bitAnd, .gt => if m ≤ c then some false else none
  | .bitAnd, .le => if m ≤ c then some true else none
  | .bitOr, .eq => if c ||| m != c then some false else none
  | .bitOr, .ne => if c ||| m != c then some true else none
  | .bitOr, .lt => if c ≤ m then some false else none
  | .bitOr, .ge => if c ≤ m then some true else none
  | .bitOr, .gt => if c < m then some true else none
  | .bitOr, .le => if c < m then some false else none
  | _, _ => none

/-- Modelled from the spec: the ineffective-mask rule of §4.3.2, replacing
the missing `bit_mask.rs`.  For `OR`/`XOR` combined with `>`/`<=` or
`<`/`>=`, the mask is provably irrelevant when the compared constant `c`
bounds a contiguous low-bit range containing the mask: for `>`/`<=`, `c`
is one less than a power of two and `m ≤ c`; for `<`/`>=`, `c` is a power
of two and `m < c`. -/
def ineffective_bit_mask_fires (bit cmp : BinOp) (m c : Nat) : Bool :=
  (bit == BinOp.bitOr || bit == BinOp.bitXor) &&
    match cmp with
    | .gt | .le => isPow2 (c + 1) && m ≤ c
    | .lt | .ge => isPow2 c && m ≤ c - 1 && c ≠ 0
    | _ => false

/-- Modelled from the spec: the verbose-mask rule of §4.3.3, replacing the
missing `verbose_bit_mask.rs`, on the literal mask: the mask's binary
representation is a contiguous low-bit run (`mask + 1` is a power of two)
whose length meets or exceeds the configured minimum bit-count threshold —
for a contiguous run, a run length of at least `threshold` bits is exactly
the bound `2 ^ threshold - 1 ≤ mask`. -/
def verbose_bit_mask_fires (threshold : Nat) (m : Nat) : Bool :=
  isPow2 (m + 1) && 2 ^ threshold - 1 ≤ m

/-- The non-negative literal bit pattern of an expression, when it has
one.  Negative or missing literals make the bit-pattern rules skip
silently (spec §4.3: all three checks require literal mask and constant
values). -/
def natLit (e : Expr) : Option Nat :=
  match constValue e with
  | some v => if 0 ≤ v then some v.toNat else none
  | none => none

/-- Modelled from the spec: the shape dispatch of the missing
`bit_mask.rs` (spec §4.3): an expression `operand BITOP mask CMPOP
constant` with a literal mask on either side of the bitwise operator and a
literal compared constant.  Emits the BAD_BIT_MASK diagnostic when the
truth table yields a verdict and the INEFFECTIVE_BIT_MASK diagnostic when
the ineffective-mask rule fires. -/
def bit_mask_check (eId : Nat) (op : BinOp) (lhs rhs : Expr) : List Diagnostic :=
  if op.isCmp then
    match lhs with
    | .binary _ bop bl br =>
      match natLit br <|> natLit bl, natLit rhs with
      | some m, some c =>
        (match bad_bit_mask_verdict bop op m c with
         | some _ => [⟨.badBitMask, eId⟩]
         | none => []) ++
        (if ineffective_bit_mask_fires bop op m c then [⟨.ineffectiveBitMask, eId⟩] else [])
      | _, _ => []
    | _ => []
  else []

/-- Modelled from the spec: the missing `verbose_bit_mask.rs` (spec
§4.3.3): the shape `operand & mask` compared with `==`/`!=` against the
literal zero, with a literal mask that is a long enough contiguous
low-bit run. -/
def verbose_bit_mask_check (threshold : Nat) (eId : Nat) (op : BinOp) (lhs rhs : Expr) :
    List Diagnostic :=
  if op == BinOp.eq || op == BinOp.ne then
    match lhs with
    | .binary _ .bitAnd bl br =>
      match natLit br <|> natLit bl, constValue rhs with
      | some m, some 0 =>
        if verbose_bit_mask_fires threshold m then [⟨.verboseBitMask, eId⟩] else []
      | _, _ => []
    | _ => []
  else []

/-! ### Extreme-value comparison analyzer (spec §4.2) -/

/-- Whether a resolved operand is the statically known minimum or maximum
of its type. -/
inductive ExtremeKind
  | minimum
  | maximum
deriving DecidableEq

/-- The verdict of the extreme-value comparison analyzer (spec §4.2):
always true, always false, or equivalent to an equality test against the
resolved bound. -/
inductive AbsurdVerdict
  | alwaysTrue
  | alwaysFalse
  | rewriteToEq (bound : Int)
deriving DecidableEq

/-- Modelled from the spec: operand resolution of §4.2, replacing the
missing `absurd_extreme_comparisons.rs`: an operand resolves to the
statically known minimum or maximum of its type via constant folding
against the type's bounds (boolean has bounds 0..1); anything else is an
ordinary value (`none`). -/
def detectExtreme (e : Expr) : Option ExtremeKind :=
  match e.ty.bounds, constValue e with
  | some (mn, mx), some v =>
    if v = mn then some .minimum
    else if v = mx then some .maximum
    else none
  | _, _ => none

/-- Modelled from the spec: the classification of §4.2, replacing the
missing `absurd_extreme_comparisons.rs`, with the rules applied in the
spec's order: the always-true rules, then the always-false rules, then the
rewrite-to-equality rules.  Skips silently when the bounds cannot be
resolved or the operand types differ. -/
def absurd_extreme_comparisons_check (op : BinOp) (lhs rhs : Expr) : Option AbsurdVerdict :=
  match lhs.ty.bounds with
  | none => none
  | some (mn, mx) =>
    if rhs.ty != lhs.ty then none
    else
      let exL := detectExtreme lhs
      let exR := detectExtreme rhs
      if op == BinOp.le && exL == some .minimum then some .alwaysTrue
      else if op == BinOp.ge && exR == some .minimum then some .alwaysTrue
      else if op == BinOp.ge && exL == some .maximum then some .alwaysTrue
      else if op == BinOp.le && exR == some .maximum then some .alwaysTrue
      else if op == BinOp.lt && exR == some .minimum then some .alwaysFalse
      else if op == BinOp.gt && exL == some .minimum then some .alwaysFalse
      else if op == BinOp.lt && exL == some .maximum then some .alwaysFalse
      else if op == BinOp.gt && exR == some .maximum then some .alwaysFalse
      else if op == BinOp.le && exR == some .minimum then some (.rewriteToEq mn)
      else if op == BinOp.ge && exL == some .minimum then some (.rewriteToEq mn)
      else if op == BinOp.ge && exR == some .maximum then some (.rewriteToEq mx)
      else if op == BinOp.le && exL == some .maximum then some (.rewriteToEq mx)
      else none

/-! ### Double-comparison merge analyzer (spec §4.5) -/

/-- The verdict of the double-comparison analyzer: combinable into a
single simpler operator, always true, or always false. -/
inductive DoubleCmpVerdict
  | mergedInto (op : BinOp)
  | alwaysTrue
  | alwaysFalse
deriving DecidableEq

/-- Swap the sides of a relational operator. -/
def flipCmp : BinOp → BinOp
  | .lt => .gt
  | .gt => .lt
  | .le => .ge
  | .ge => .le
  | o => o

/-- Modelled from the spec: the verdict table of §4.5, replacing the
missing `double_comparison.rs`: a lookup from (left operator, right
operator, conjunction-or-disjunction) to combinable / always-true /
always-false / no simplification.  Complementary operators joined by `||`
are always true; contradictory (disjoint) operators joined by `&&` are
always false.  The three-way pair `<` joined with `>` by `||` is a
deliberate non-merge in this implementation (spec §8). -/
def double_comparison_verdict (conn l r : BinOp) : Option DoubleCmpVerdict :=
  match conn, l, r with
  | .lor, .eq, .lt | .lor, .lt, .eq => some (.mergedInto .le)
  | .lor, .eq, .gt | .lor, .gt, .eq => some (.mergedInto .ge)
  | .land, .le, .ge | .land, .ge, .le => some (.mergedInto .eq)
  | .lor, .eq, .ne | .lor, .ne, .eq => some .alwaysTrue
  | .lor, .lt, .ge | .lor, .ge, .lt => some .alwaysTrue
  | .lor, .gt, .le | .lor, .le, .gt => some .alwaysTrue
  | .land, .eq, .ne | .land, .ne, .eq => some .alwaysFalse
  | .land, .lt, .gt | .land, .gt, .lt => some .alwaysFalse
  | .land, .lt, .ge | .land, .ge, .lt => some .alwaysFalse
  | .land, .gt, .le | .land, .le, .gt => some .alwaysFalse
  | .land, .eq, .lt | .land, .lt, .eq => some .alwaysFalse
  | .land, .eq, .gt | .land, .gt, .eq => some .alwaysFalse
  | _, _, _ => none

/-- Modelled from the spec: the missing `double_comparison.rs` — a
`&&`/`||` whose two sides are relational comparisons over the same two
operands, in the same order or swapped (with the right comparison's
operator flipped accordingly); operands are matched by syntactic
equality. -/
def double_comparison_check (conn : BinOp) (lhs rhs : Expr) : Option DoubleCmpVerdict :=
  match lhs, rhs with
  | .binary _ lop la lb, .binary _ rop ra rb =>
    if lop.isCmp && rop.isCmp then
      if structEq la ra && structEq lb rb then double_comparison_verdict conn lop rop
      else if structEq la rb && structEq lb ra then
        double_comparison_verdict conn lop (flipCmp rop)
      else none
    else none
  | _, _ => none

/-! ### Assignment-pattern analyzers (spec §4.6) -/

/-- The commutative binary operators (spec §4.6). -/
def isCommutative : BinOp → Bool
  | .add | .mul | .bitAnd | .bitOr | .bitXor => true
  | _ => false

/-- The binary operators that have a compound-assignment form. -/
def isAssignableOp : BinOp → Bool
  | .add | .sub | .mul | .div | .rem | .shl | .shr | .bitAnd | .bitOr | .bitXor => true
  | _ => false

/-- Modelled from the spec: the missing `assign_op_pattern.rs` (spec
§4.6): on a plain assignment `lhs = rhs` where `rhs` is `a op b`, suggest
the compound assignment `lhs op= arg` when `a` is syntactically identical
to `lhs` (arg is `b`), or — only for commutative `op` — when `b` is
syntactically identical to `lhs` (arg is `a`). -/
def assign_op_pattern_check (lhs rhs : Expr) : Option (BinOp × Expr) :=
  match rhs with
  | .binary _ op a b =>
    if isAssignableOp op then
      if structEq a lhs then some (op, b)
      else if isCommutative op && structEq b lhs then some (op, a)
      else none
    else none
  | _ => none

/-- Modelled from the spec: the missing `misrefactored_assign_op.rs` (spec
§4.6): `a op= a op b`, or `a op= b op a` for commutative `op`. -/
def misrefactored_assign_op_fires (op : BinOp) (lhs rhs : Expr) : Bool :=
  match rhs with
  | .binary _ op2 a b =>
    op2 == op && (structEq a lhs || (isCommutative op && structEq b lhs))
  | _ => false

/-! ### Arithmetic overflow-risk scope tracker (spec §4.4) -/

/-- Modelled from the spec: the per-function-body state of the missing
`numeric_arithmetic.rs` (spec §3, `SuppressionScope`): a stack of scopes,
one per (possibly nested) function body in strict LIFO order, each holding
the set of node identifiers already counted toward an arithmetic-risk
report. -/
structure Context where
  scopes : List (List Nat)
deriving DecidableEq

/-- Modelled from the spec: the arithmetic risk category of one binary
node (spec §4.4): the integer operators `+`, `-`, `*`, `<<` (overflow
risk) and `/`, `%` (division/modulo-by-zero risk) over integer operands
are reported under the integer-arithmetic category; float arithmetic is a
separate, independently toggle-able category. -/
def is_arith_op : BinOp → Bool
  | .add | .sub | .mul | .shl | .div | .rem => true
  | _ => false

def arith_rule_for (op : BinOp) (lty rty : Ty) : Option Rule :=
  if is_arith_op op then
    match lty, rty with
    | .int _, .int _ => some .integerArithmetic
    | .float, .float => some .floatArithmetic
    | _, _ => none
  else none

/-- Modelled from the spec (§4.4): pre-order inspection of a binary
arithmetic or compound-assignment node.  When the current body's scope
already tracks a node, an enclosing arithmetic node is being reported, so
the child is only marked as covered; otherwise the node is reported and
tracked. -/
def Context.check_binary (st : Context) (id : Nat) (op : BinOp) (lty rty : Ty) :
    Context × List Diagnostic :=
  match arith_rule_for op lty rty with
  | none => (st, [])
  | some r =>
    match st.scopes with
    | [] => (st, [])
    | s :: rest =>
      if s.isEmpty then (⟨(id :: s) :: rest⟩, [⟨r, id⟩])
      else (⟨(id :: s) :: rest⟩, [])

/-- Modelled from the spec (§4.4): unary negation is flagged only for
signed integer operands, which can overflow on negation of the minimum
value; the same suppression scope applies. -/
def Context.check_negate (st : Context) (id : Nat) (argTy : Ty) :
    Context × List Diagnostic :=
  match argTy with
  | .int t =>
    if t.signed then
      match st.scopes with
      | [] => (st, [])
      | s :: rest =>
        if s.isEmpty then (⟨(id :: s) :: rest⟩, [⟨.integerArithmetic, id⟩])
        else (⟨(id :: s) :: rest⟩, [])
    else (st, [])
  | _ => (st, [])

/-- Modelled from the spec (§4.4): the post-order hook clears a node's
tracking entry once its parent has consumed it, bounding the set's size to
the current recursion depth. -/
def Context.expr_post (st : Context) (id : Nat) : Context :=
  match st.scopes with
  | [] => st
  | s :: rest => ⟨s.erase id :: rest⟩

/-- Modelled from the spec (§3, §4.4): entering a function body pushes a
fresh, empty tracking scope. -/
def Context.enter_body (st : Context) : Context :=
  ⟨[] :: st.scopes⟩

/-- Modelled from the spec (§4.4): exiting the body discards the whole
tracking set unconditionally. -/
def Context.body_post (st : Context) : Context :=
  ⟨st.scopes.tail⟩

/-! ### The dispatcher (`LateLintPass for Operators`, mod.rs) -/

/-- The lint pass state, from `pub struct Operators` in mod.rs: the
arithmetic context and the configured verbose-bit-mask threshold. -/
structure Operators where
  arithmetic_context : Context
  verbose_bit_mask_threshold : Nat
deriving DecidableEq

/-- From `Operators::new` in mod.rs: a default arithmetic context and the
configured threshold. -/
def Operators.new (threshold : Nat) : Operators :=
  ⟨⟨[]⟩, threshold⟩

/-- The diagnostics of the extreme-value comparison analyzer on one
binary node: one ABSURD_EXTREME_COMPARISONS diagnostic when it yields a
verdict. -/
def absurd_diags (eId : Nat) (op : BinOp) (lhs rhs : Expr) : List Diagnostic :=
  match absurd_extreme_comparisons_check op lhs rhs with
  | some _ => [⟨.absurdExtremeComparisons, eId⟩]
  | none => []

/-- The diagnostics of the double-comparison merge analyzer on one binary
node: one DOUBLE_COMPARISONS diagnostic when it yields a verdict. -/
def double_comparison_diags (eId : Nat) (conn : BinOp) (lhs rhs : Expr) : List Diagnostic :=
  match double_comparison_check conn lhs rhs with
  | some _ => [⟨.doubleComparisons, eId⟩]
  | none => []

/-- The diagnostics of the compound-assign pattern analyzer on one plain
assignment node. -/
def assign_op_pattern_diags (eId : Nat) (lhs rhs : Expr) : List Diagnostic :=
  match assign_op_pattern_check lhs rhs with
  | some _ => [⟨.assignOpPattern, eId⟩]
  | none => []

/-- The diagnostics of the misrefactored-assign-op analyzer on one
compound assignment node. -/
def misrefactored_assign_op_diags (eId : Nat) (op : BinOp) (lhs rhs : Expr) : List Diagnostic :=
  if misrefactored_assign_op_fires op lhs rhs then [⟨.misrefactoredAssignOp, eId⟩]
  else []

/-- The dispatcher, from `LateLintPass::check_expr` in mod.rs.  On a
binary node the extreme-value check runs only when the node's span is not
from a macro expansion; the arithmetic, bit-mask, verbose-bit-mask and
double-comparison checks always run.  Compound assignments feed the
arithmetic and misrefactored-assign-op checks; plain assignments feed the
compound-assign pattern check; unary negation feeds the arithmetic negate
check. -/
def Operators.check_expr (st : Operators) (e : Expr) : Operators × List Diagnostic :=
  match e with
  | .binary i op lhs rhs =>
    (⟨(st.arithmetic_context.check_binary i.id op lhs.ty rhs.ty).1,
        st.verbose_bit_mask_threshold⟩,
      (if !i.fromExpansion then absurd_diags i.id op lhs rhs else []) ++
        (st.arithmetic_context.check_binary i.id op lhs.ty rhs.ty).2 ++
        bit_mask_check i.id op lhs rhs ++
        verbose_bit_mask_check st.verbose_bit_mask_threshold i.id op lhs rhs ++
        double_comparison_diags i.id op lhs rhs)
  | .assignOp i op lhs rhs =>
    (⟨(st.arithmetic_context.check_binary i.id op lhs.ty rhs.ty).1,
        st.verbose_bit_mask_threshold⟩,
      (st.arithmetic_context.check_binary i.id op lhs.ty rhs.ty).2 ++
        misrefactored_assign_op_diags i.id op lhs rhs)
  | .assign i lhs rhs =>
    (st, assign_op_pattern_diags i.id lhs rhs)
  | .unaryNeg i arg =>
    (⟨(st.arithmetic_context.check_negate i.id arg.ty).1,
        st.verbose_bit_mask_threshold⟩,
      (st.arithmetic_context.check_negate i.id arg.ty).2)
  | _ => (st, [])

/-- From `LateLintPass::check_expr_post` in mod.rs: the post-order hook
runs only the arithmetic context's `expr_post`, on every expression. -/
def Operators.check_expr_post (st : Operators) (e : Expr) : Operators :=
  ⟨st.arithmetic_context.expr_post e.nodeId, st.verbose_bit_mask_threshold⟩

/-- From `LateLintPass::check_body` in mod.rs: entering a function body
enters a fresh arithmetic scope. -/
def Operators.check_body (st : Operators) : Operators :=
  ⟨st.arithmetic_context.enter_body, st.verbose_bit_mask_threshold⟩

/-- From `LateLintPass::check_body_post` in mod.rs: exiting a function
body discards its arithmetic scope. -/
def Operators.check_body_post (st : Operators) : Operators :=
  ⟨st.arithmetic_context.body_post, st.verbose_bit_mask_threshold⟩

/-- The external driver's recursive walk (spec §4.1): visit each node in
pre-order (`check_expr`), walk the children left to right, then deliver
the matching post-order notification (`check_expr_post`); diagnostics are
appended in traversal order. -/
def walk (st : Operators) (e : Expr) : Operators × List Diagnostic :=
  match e with
  | .binary i op l r =>
    let p0 := st.check_expr (.binary i op l r)
    let p1 := walk p0.1 l
    let p2 := walk p1.1 r
    (p2.1.check_expr_post (.binary i op l r), p0.2 ++ (p1.2 ++ p2.2))
  | .assign i l r =>
    let p0 := st.check_expr (.assign i l r)
    let p1 := walk p0.1 l
    let p2 := walk p1.1 r
    (p2.1.check_expr_post (.assign i l r), p0.2 ++ (p1.2 ++ p2.2))
  | .assignOp i op l r =>
    let p0 := st.check_expr (.assignOp i op l r)
    let p1 := walk p0.1 l
    let p2 := walk p1.1 r
    (p2.1.check_expr_post (.assignOp i op l r), p0.2 ++ (p1.2 ++ p2.2))
  | .unaryNeg i a =>
    let p0 := st.check_expr (.unaryNeg i a)
    let p1 := walk p0.1 a
    (p1.1.check_expr_post (.unaryNeg i a), p0.2 ++ p1.2)
  | eLeaf =>
    ((st.check_expr eLeaf).1.check_expr_post eLeaf, (st.check_expr eLeaf).2)

/-- One function body analyzed end to end: enter the body, walk its root
expression, exit the body (`check_body`, expression traversal,
`check_body_post` in mod.rs). -/
def run_body (st : Operators) (b : Expr) : Operators × List Diagnostic :=
  let st1 := st.check_body
  let (st2, ds) := walk st1 b
  (st2.check_body_post, ds)

/-! ### Helper lemmas about bit patterns -/

theorem land_self_right (x m : Nat) : (x &&& m) &&& m = x &&& m := by
  rw [Nat.and_assoc, Nat.and_self]

theorem lor_self_right (x m : Nat) : (x ||| m) ||| m = x ||| m := by
  rw [Nat.or_assoc, Nat.or_self]

theorem land_lor_self (x m : Nat) : x &&& (x ||| m) = x := by
  apply Nat.eq_of_testBit_eq
  intro i
  rw [Nat.testBit_and, Nat.testBit_or]
  cases x.testBit i <;> simp

theorem le_lor_left (x m : Nat) : x ≤ x ||| m := by
  conv_lhs => rw [← land_lor_self x m]
  exact Nat.and_le_right

theorem le_lor_right (x m : Nat) : m ≤ x ||| m := by
  rw [Nat.or_comm]
  exact le_lor_left m x

theorem lxor_cancel_right (x m : Nat) : (x ^^^ m) ^^^ m = x := by
  rw [Nat.xor_assoc, Nat.xor_self, Nat.xor_zero]

theorem lor_lt_two_pow_iff (k x m : Nat) (hm : m < 2 ^ k) :
    (x ||| m < 2 ^ k) ↔ x < 2 ^ k :=
  ⟨fun h => Nat.lt_of_le_of_lt (le_lor_left x m) h, fun h => Nat.or_lt_two_pow h hm⟩

theorem lxor_lt_two_pow_iff (k x m : Nat) (hm : m < 2 ^ k) :
    (x ^^^ m < 2 ^ k) ↔ x < 2 ^ k := by
  constructor
  · intro h
    have h2 := Nat.xor_lt_two_pow h hm
    rwa [lxor_cancel_right] at h2
  · intro h
    exact Nat.xor_lt_two_pow h hm

theorem odd_and_pred (j : Nat) : (2 * j + 1) &&& (2 * j) = 2 * j := by
  apply Nat.eq_of_testBit_eq
  intro i
  match i with
  | 0 =>
    simp only [Nat.testBit_and, Nat.testBit_zero]
    rw [show (2 * j) % 2 = 0 by omega]
    simp
  | i + 1 =>
    rw [Nat.testBit_and, Nat.testBit_add_one, Nat.testBit_add_one]
    rw [show (2 * j + 1) / 2 = j by omega, show (2 * j) / 2 = j by omega, Bool.and_self]

theorem two_pow_and_pred (k : Nat) : 2 ^ k &&& (2 ^ k - 1) = 0 := by
  apply Nat.eq_of_testBit_eq
  intro i
  simp only [Nat.testBit_and, Nat.testBit_two_pow, Nat.testBit_two_pow_sub_one,
    Nat.zero_testBit, Bool.and_eq_false_iff, decide_eq_false_iff_not]
  omega

theorem isPow2_iff : ∀ n : Nat, isPow2 n = true ↔ ∃ k, n = 2 ^ k := by
  intro n
  induction n using Nat.strong_induction_on with
  | _ n ih =>
    constructor
    · intro h
      simp only [isPow2, Bool.and_eq_true, bne_iff_ne, ne_eq, beq_iff_eq] at h
      obtain ⟨hne, hand⟩ := h
      rcases Nat.lt_or_ge n 2 with hsmall | hbig
      · exact ⟨0, by omega⟩
      · rcases Nat.even_or_odd n with hev | hodd
        · obtain ⟨j, hj⟩ := hev
          have hj2 : n = 2 * j := by omega
          have hdiv : (n &&& (n - 1)) / 2 = j &&& (j - 1) := by
            rw [Nat.and_div_two, hj2, show 2 * j / 2 = j by omega,
              show (2 * j - 1) / 2 = j - 1 by omega]
          have hand2 : j &&& (j - 1) = 0 := by rw [← hdiv, hand]
          obtain ⟨k, hk⟩ := (ih j (by omega)).mp
            (by simp only [isPow2, Bool.and_eq_true, bne_iff_ne, ne_eq, beq_iff_eq]
                exact ⟨by omega, hand2⟩)
          exact ⟨k + 1, by rw [hj2, hk, Nat.pow_succ]; ring⟩
        · obtain ⟨j, hj⟩ := hodd
          have hcontra : n &&& (n - 1) = 2 * j := by
            rw [hj, show 2 * j + 1 - 1 = 2 * j by omega, odd_and_pred]
          omega
    · rintro ⟨k, hk⟩
      subst hk
      simp only [isPow2, Bool.and_eq_true, bne_iff_ne, ne_eq, beq_iff_eq]
      exact ⟨Nat.pos_iff_ne_zero.mp (Nat.pos_pow_of_pos k (by omega)), two_pow_and_pred k⟩

theorem isPow2_two_pow (k : Nat) : isPow2 (2 ^ k) = true :=
  (isPow2_iff (2 ^ k)).mpr ⟨k, rfl⟩

/-- For a constant `c` with `c + 1 = 2 ^ k` (a contiguous low-bit bound)
and a mask `m ≤ c`, OR-ing or XOR-ing the mask does not change whether the
operand is at most `c`. -/
theorem bitop_le_congr (bop : BinOp) (hbop : bop = .bitOr ∨ bop = .bitXor)
    (k x m c : Nat) (hc : c + 1 = 2 ^ k) (hm : m ≤ c) :
    (evalBitOpNat bop x m ≤ c ↔ x ≤ c) := by
  have hm2 : m < 2 ^ k := hc ▸ Nat.lt_succ_of_le hm
  cases hbop with
  | inl h =>
    subst h
    have hiff := lor_lt_two_pow_iff k x m hm2
    rw [← hc] at hiff
    simp only [evalBitOpNat]
    omega
  | inr h =>
    subst h
    have hiff := lxor_lt_two_pow_iff k x m hm2
    rw [← hc] at hiff
    simp only [evalBitOpNat]
    omega

/-- For a constant `c = 2 ^ k` and a mask `m < c`, OR-ing or XOR-ing the
mask does not change whether the operand is below `c`. -/
theorem bitop_lt_congr (bop : BinOp) (hbop : bop = .bitOr ∨ bop = .bitXor)
    (k x m c : Nat) (hc : c = 2 ^ k) (hm : m < c) :
    (evalBitOpNat bop x m < c ↔ x < c) := by
  subst hc
  cases hbop with
  | inl h =>
    subst h
    exact lor_lt_two_pow_iff k x m hm
  | inr h =>
    subst h
    exact lxor_lt_two_pow_iff k x m hm

/-! ### Concrete fixtures for the testable properties of spec §8 -/

/-- A 32-bit signed integer type for concrete examples. -/
def i32 : Ty := .int ⟨32, true⟩

/-- An 8-bit unsigned integer type for concrete examples. -/
def u8 : Ty := .int ⟨8, false⟩

/-- Node facts for an example node: fresh id, 32-bit signed type, not from
a macro expansion. -/
def exInfo (n : Nat) : NodeInfo := ⟨n, i32, false⟩

def varA : Expr := .pathVar (exInfo 1) 1
def varB : Expr := .pathVar (exInfo 2) 2
def varC : Expr := .pathVar (exInfo 3) 3

/-- The inner addition `a + b` of the spec §8 tree `(a + b) + c`. -/
def sumAB : Expr := .binary (exInfo 4) .add varA varB

/-- The expression tree `(a + b) + c` of spec §8. -/
def sumABC : Expr := .binary (exInfo 5) .add sumAB varC

/-! ### The claims -/

/-- C1: For every literal pair (mask, constant) of the same integer type
and every operand value of that type (all three restricted to 8-bit
patterns, where the check is exhaustively checkable), every verdict of the
BAD_BIT_MASK decision table — AND with `==`/`!=` decided when
`(constant & mask) != constant`, AND with `<`/`>=` decided when
`mask < constant`, AND with `>`/`<=` decided when `mask <= constant`, OR
with `==`/`!=` decided when `(constant | mask) != constant`, OR with
`<`/`>=` decided when `mask >= constant`, OR with `<=`/`>` decided when
`mask > constant` — agrees with direct evaluation of the masked
comparison: whenever the table yields the constant truth value `v`, the
comparison `(x BITOP mask) CMPOP constant` evaluates to `v` for the
operand value `x`. -/
theorem c1_bad_bit_mask_truth_table (bit cmp : BinOp) (m c x : Nat) (v : Bool)
    (hm : m < 256) (hc : c < 256) (hx : x < 256)
    (hv : bad_bit_mask_verdict bit cmp m c = some v) :
    evalCmpNat cmp (evalBitOpNat bit x m) c = v := by
  have hAndLe : x &&& m ≤ m := Nat.and_le_right
  have hOrGe : m ≤ x ||| m := le_lor_right x m
  have hAndEq : x &&& m = c → c &&& m = c := by
    intro he
    rw [← he, land_self_right]
  have hOrEq : x ||| m = c → c ||| m = c := by
    intro he
    rw [← he, lor_self_right]
  unfold bad_bit_mask_verdict at hv
  split at hv <;>
    [skip; skip; skip; skip; skip; skip; skip; skip; skip; skip; skip; skip;
     exact Option.noConfusion hv] <;>
  · split at hv
    · injection hv with hveq
      subst hveq
      rename_i hcond
      simp only [evalBitOpNat, evalCmpNat, bne_iff_ne, ne_eq] at hcond ⊢
      first
        | simp only [decide_eq_true_eq]
        | simp only [decide_eq_false_iff_not]
      first
        | exact fun he => hcond (hAndEq he)
        | exact fun he => hcond (hOrEq he)
        | omega
    · exact Option.noConfusion hv

/-- Witness for C1 at the documentation's own example `x & 2 == 3`: the
table decides the comparison is always false, and evaluating at the
operand value 5 indeed gives false. -/
theorem c1_bad_bit_mask_truth_table_witness :
    evalCmpNat .eq (evalBitOpNat .bitAnd 5 2) 3 = false :=
  c1_bad_bit_mask_truth_table .bitAnd .eq 2 3 5 false (by decide) (by decide)
    (by decide) (by decide)

/-- C2: For every type T with resolved bounds [mn, mx] and every operand
expression x of type T, the extreme-value comparison analyzer classifies
`mn <= x` and `x >= mn` as always-true and `x < mn` as always-false
(emitting the corresponding verdict), and the verdicts agree with
evaluation on every in-bounds value of T. -/
theorem c2_extreme_minimum_comparisons (t : Ty) (mn mx : Int) (i : NodeInfo) (x : Expr)
    (hb : t.bounds = some (mn, mx)) (hi : i.ty = t) (hx : x.ty = t) :
    absurd_extreme_comparisons_check .le (.lit i mn) x = some .alwaysTrue ∧
    absurd_extreme_comparisons_check .ge x (.lit i mn) = some .alwaysTrue ∧
    absurd_extreme_comparisons_check .lt x (.lit i mn) = some .alwaysFalse ∧
    (∀ v : Int, mn ≤ v → v ≤ mx →
      evalRelInt .le mn v = true ∧ evalRelInt .ge v mn = true ∧
      evalRelInt .lt v mn = false) := by
  have hlitExtreme : detectExtreme (.lit i mn) = some .minimum := by
    simp [detectExtreme, ty_lit, hi, hb, constValue]
  refine ⟨?_, ?_, ?_, ?_⟩
  · simp [absurd_extreme_comparisons_check, ty_lit, hi, hb, hx, hlitExtreme]
  · simp [absurd_extreme_comparisons_check, ty_lit, hi, hb, hx, hlitExtreme]
  · simp [absurd_extreme_comparisons_check, ty_lit, hi, hb, hx, hlitExtreme]
  · intro v h1 h2
    simp only [evalRelInt, decide_eq_true_eq, decide_eq_false_iff_not]
    omega

/-- Witness for C2 at the 8-bit unsigned type (bounds 0..255) and the
ordinary operand `x`: `0 <= x` and `x >= 0` are always true, `x < 0` is
always false. -/
theorem c2_extreme_minimum_comparisons_witness :
    absurd_extreme_comparisons_check .le (.lit ⟨10, u8, false⟩ 0)
        (.pathVar ⟨11, u8, false⟩ 7) = some .alwaysTrue ∧
    absurd_extreme_comparisons_check .ge (.pathVar ⟨11, u8, false⟩ 7)
        (.lit ⟨10, u8, false⟩ 0) = some .alwaysTrue ∧
    absurd_extreme_comparisons_check .lt (.pathVar ⟨11, u8, false⟩ 7)
        (.lit ⟨10, u8, false⟩ 0) = some .alwaysFalse ∧
    (∀ v : Int, 0 ≤ v → v ≤ 255 →
      evalRelInt .le 0 v = true ∧ evalRelInt .ge v 0 = true ∧
      evalRelInt .lt v 0 = false) :=
  c2_extreme_minimum_comparisons u8 0 255 ⟨10, u8, false⟩
    (.pathVar ⟨11, u8, false⟩ 7) (by decide) rfl rfl

/-- C8: For operands of a type with resolved bounds [mn, mx] (mn ≠ mx) and
an ordinary operand x of that type, the comparisons `x <= mn` and
`mn >= x` are classified as equivalent to the equality test `x == mn`, and
`x >= mx` and `mx <= x` as equivalent to `x == mx` — a rewrite-to-equality
verdict with the resolved bound, not an always-true/always-false verdict —
and the equivalence agrees with evaluation on every in-bounds value. -/
theorem c8_extreme_equality_rewrites (t : Ty) (mn mx : Int) (i j : NodeInfo) (x : Expr)
    (hb : t.bounds = some (mn, mx)) (hmn : mn ≠ mx)
    (hi : i.ty = t) (hj : j.ty = t) (hx : x.ty = t)
    (hord : detectExtreme x = none) :
    absurd_extreme_comparisons_check .le x (.lit i mn) = some (.rewriteToEq mn) ∧
    absurd_extreme_comparisons_check .ge (.lit i mn) x = some (.rewriteToEq mn) ∧
    absurd_extreme_comparisons_check .ge x (.lit j mx) = some (.rewriteToEq mx) ∧
    absurd_extreme_comparisons_check .le (.lit j mx) x = some (.rewriteToEq mx) ∧
    (∀ v : Int, mn ≤ v → v ≤ mx →
      evalRelInt .le v mn = evalRelInt .eq v mn ∧
      evalRelInt .ge v mx = evalRelInt .eq v mx) := by
  have hminExtreme : detectExtreme (.lit i mn) = some .minimum := by
    simp [detectExtreme, ty_lit, hi, hb, constValue]
  have hmaxExtreme : detectExtreme (.lit j mx) = some .maximum := by
    simp [detectExtreme, ty_lit, hj, hb, constValue, hmn.symm]
  refine ⟨?_, ?_, ?_, ?_, ?_⟩
  · simp [absurd_extreme_comparisons_check, ty_lit, hi, hb, hx, hminExtreme, hord]
  · simp [absurd_extreme_comparisons_check, ty_lit, hi, hb, hx, hminExtreme, hord]
  · simp [absurd_extreme_comparisons_check, ty_lit, hj, hb, hx, hmaxExtreme, hord]
  · simp [absurd_extreme_comparisons_check, ty_lit, hj, hb, hx, hmaxExtreme, hord]
  · intro v h1 h2
    simp only [evalRelInt]
    constructor
    · apply decide_eq_decide.mpr
      omega
    · apply decide_eq_decide.mpr
      omega

/-- Witness for C8 at the 8-bit unsigned type (bounds 0..255) and the
ordinary operand `x`: `x <= 0`, `0 >= x`, `x >= 255` and `255 <= x` are
all rewrite-to-equality verdicts. -/
theorem c8_extreme_equality_rewrites_witness :
    absurd_extreme_comparisons_check .le (.pathVar ⟨11, u8, false⟩ 7)
        (.lit ⟨10, u8, false⟩ 0) = some (.rewriteToEq 0) ∧
    absurd_extreme_comparisons_check .ge (.lit ⟨10, u8, false⟩ 0)
        (.pathVar ⟨11, u8, false⟩ 7) = some (.rewriteToEq 0) ∧
    absurd_extreme_comparisons_check .ge (.pathVar ⟨11, u8, false⟩ 7)
        (.lit ⟨12, u8, false⟩ 255) = some (.rewriteToEq 255) ∧
    absurd_extreme_comparisons_check .le (.lit ⟨12, u8, false⟩ 255)
        (.pathVar ⟨11, u8, false⟩ 7) = some (.rewriteToEq 255) ∧
    (∀ v : Int, 0 ≤ v → v ≤ 255 →
      evalRelInt .le v 0 = evalRelInt .eq v 0 ∧
      evalRelInt .ge v 255 = evalRelInt .eq v 255) :=
  c8_extreme_equality_rewrites u8 0 255 ⟨10, u8, false⟩ ⟨12, u8, false⟩
    (.pathVar ⟨11, u8, false⟩ 7) (by decide) (by decide) rfl rfl rfl (by decide)

/-- C3: For the nested integer-arithmetic expression tree `(a + b) + c`
traversed inside a single function body, the overflow-risk tracker emits
exactly one arithmetic-risk diagnostic — for the outermost node (id 5) —
not one per binary node: the inner `a + b` is suppressed because its
result is immediately consumed by the outer addition already being
reported. -/
theorem c3_nested_arithmetic_one_diagnostic :
    (run_body (Operators.new 4) sumABC).2 = [⟨.integerArithmetic, 5⟩] := by
  decide

/-- C4: For two relational comparisons over the same operand pair joined
by a logical connective: `x == y || x < y` merges to the single comparison
`x <= y`; `x < y && x > y` is reported always-false; `x < y || x > y` is
not merged (no verdict — this implementation does not merge to `!=`).
The merged operator and the always-false verdict agree with integer
semantics. -/
theorem c4_double_comparison_table :
    double_comparison_check .lor (.binary (exInfo 20) .eq varA varB)
        (.binary (exInfo 21) .lt varA varB) = some (.mergedInto .le) ∧
    double_comparison_check .land (.binary (exInfo 22) .lt varA varB)
        (.binary (exInfo 23) .gt varA varB) = some .alwaysFalse ∧
    double_comparison_check .lor (.binary (exInfo 24) .lt varA varB)
        (.binary (exInfo 25) .gt varA varB) = none ∧
    (∀ a b : Int, (evalRelInt .eq a b || evalRelInt .lt a b) = evalRelInt .le a b) ∧
    (∀ a b : Int, (evalRelInt .lt a b && evalRelInt .gt a b) = false) := by
  refine ⟨by decide, by decide, by decide, ?_, ?_⟩
  · intro a b
    simp only [evalRelInt, ← Bool.decide_or]
    apply decide_eq_decide.mpr
    omega
  · intro a b
    simp only [evalRelInt, ← Bool.decide_and]
    rw [decide_eq_false_iff_not]
    omega

/-- C5: On a plain assignment node, `a = a + b` produces the
compound-assign suggestion `a += b`; `a = b + a` (commutative operator)
also produces `a += b`; `a = a - b` produces `a -= b`; `a = b - a`
(non-commutative, repeated operand only on the right) produces no
suggestion; a structurally different left operand (`a = c + b`) produces
no suggestion; and the dispatcher emits exactly the corresponding
ASSIGN_OP_PATTERN diagnostic on the assignment node. -/
theorem c5_assign_op_pattern_shapes :
    assign_op_pattern_check varA (.binary (exInfo 30) .add varA varB) = some (.add, varB) ∧
    assign_op_pattern_check varA (.binary (exInfo 31) .add varB varA) = some (.add, varB) ∧
    assign_op_pattern_check varA (.binary (exInfo 32) .sub varA varB) = some (.sub, varB) ∧
    assign_op_pattern_check varA (.binary (exInfo 33) .sub varB varA) = none ∧
    assign_op_pattern_check varA (.binary (exInfo 34) .add varC varB) = none ∧
    ((Operators.new 4).check_expr
        (.assign (exInfo 35) varA (.binary (exInfo 30) .add varA varB))).2 =
      [⟨.assignOpPattern, 35⟩] ∧
    ((Operators.new 4).check_expr
        (.assign (exInfo 36) varA (.binary (exInfo 33) .sub varB varA))).2 = [] := by
  decide

/-- An 8-bit operand `x` for the verbose-mask example. -/
def varX8 : Expr := .pathVar ⟨40, u8, false⟩ 103

/-- The literal mask `0b1111`. -/
def mask15 : Expr := .lit ⟨41, u8, false⟩ 15

/-- The literal zero compared against. -/
def zero8 : Expr := .lit ⟨42, u8, false⟩ 0

/-- The shape `x & 0b1111`. -/
def maskAnd15 : Expr := .binary ⟨43, u8, false⟩ .bitAnd varX8 mask15

/-- C6: For an AND mask compared with `==` against zero whose binary form
is the contiguous low-bit run `0b1111`: with threshold 3 the check emits
the pedantic-tier VERBOSE_BIT_MASK diagnostic, with threshold 5 it emits
nothing; and on every contiguous low-bit mask `2 ^ k - 1` the check fires
exactly when the run length `k` meets or exceeds the threshold. -/
theorem c6_verbose_bit_mask_threshold :
    verbose_bit_mask_check 3 50 .eq maskAnd15 zero8 = [⟨.verboseBitMask, 50⟩] ∧
    verbose_bit_mask_check 5 50 .eq maskAnd15 zero8 = [] ∧
    Rule.verboseBitMask.severity = .pedantic ∧
    (∀ threshold k : Nat,
      verbose_bit_mask_fires threshold (2 ^ k - 1) = decide (threshold ≤ k)) := by
  refine ⟨by decide, by decide, rfl, ?_⟩
  intro threshold k
  have h1 : 2 ^ k - 1 + 1 = 2 ^ k := by
    have := Nat.pos_pow_of_pos k (show 0 < 2 by omega)
    omega
  have h2 : (2 ^ threshold - 1 ≤ 2 ^ k - 1) ↔ threshold ≤ k := by
    have ht := Nat.pos_pow_of_pos threshold (show 0 < 2 by omega)
    have hk := Nat.pos_pow_of_pos k (show 0 < 2 by omega)
    rw [show (2 ^ threshold - 1 ≤ 2 ^ k - 1) ↔ 2 ^ threshold ≤ 2 ^ k by omega]
    exact Nat.pow_le_pow_iff_right (by omega)
  simp only [verbose_bit_mask_fires, h1, isPow2_two_pow, Bool.true_and]
  exact decide_eq_decide.mpr h2

/-- C7: When the ineffective-mask analyzer fires on
`operand BITOP mask CMPOP constant` (BITOP in `{|, ^}`, CMPOP an order
comparison, mask and constant literal bit patterns), dropping the mask is
provably sound: the masked comparison evaluates exactly as the unmasked
comparison at every operand value; and the analyzer only ever fires when
the compared constant is a power of two or one less than a power of two —
so constants without this provable relationship never produce the
diagnostic (a deliberate false negative). -/
theorem c7_ineffective_bit_mask (bit cmp : BinOp) (m c x : Nat)
    (hfire : ineffective_bit_mask_fires bit cmp m c = true) :
    evalCmpNat cmp (evalBitOpNat bit x m) c = evalCmpNat cmp x c ∧
    (isPow2 c || isPow2 (c + 1)) = true := by
  simp only [ineffective_bit_mask_fires, Bool.and_eq_true, Bool.or_eq_true,
    beq_iff_eq] at hfire
  obtain ⟨hbit, hcmp⟩ := hfire
  cases cmp
  all_goals try exact Bool.noConfusion hcmp
  case lt =>
    simp only [Bool.and_eq_true, decide_eq_true_eq, ne_eq] at hcmp
    obtain ⟨⟨hp, hm⟩, hc0⟩ := hcmp
    obtain ⟨k, hk⟩ := (isPow2_iff c).mp hp
    have hmlt : m < c := by omega
    have hiff := bitop_lt_congr bit hbit k x m c hk hmlt
    refine ⟨?_, by simp [hp]⟩
    simp only [evalCmpNat]
    exact decide_eq_decide.mpr hiff
  case ge =>
    simp only [Bool.and_eq_true, decide_eq_true_eq, ne_eq] at hcmp
    obtain ⟨⟨hp, hm⟩, hc0⟩ := hcmp
    obtain ⟨k, hk⟩ := (isPow2_iff c).mp hp
    have hmlt : m < c := by omega
    have hiff := bitop_lt_congr bit hbit k x m c hk hmlt
    refine ⟨?_, by simp [hp]⟩
    simp only [evalCmpNat]
    exact decide_eq_decide.mpr (by omega)
  case gt =>
    simp only [Bool.and_eq_true, decide_eq_true_eq] at hcmp
    obtain ⟨hp, hm⟩ := hcmp
    obtain ⟨k, hk⟩ := (isPow2_iff (c + 1)).mp hp
    have hiff := bitop_le_congr bit hbit k x m c hk hm
    refine ⟨?_, by simp [hp]⟩
    simp only [evalCmpNat]
    exact decide_eq_decide.mpr (by omega)
  case le =>
    simp only [Bool.and_eq_true, decide_eq_true_eq] at hcmp
    obtain ⟨hp, hm⟩ := hcmp
    obtain ⟨k, hk⟩ := (isPow2_iff (c + 1)).mp hp
    have hiff := bitop_le_congr bit hbit k x m c hk hm
    refine ⟨?_, by simp [hp]⟩
    simp only [evalCmpNat]
    exact decide_eq_decide.mpr hiff

/-! ### Scope-stack lifecycle (spec §5: bodies are independent units) -/

theorem Context.eq_mk_of_scopes {ctx : Context} {l : List (List Nat)}
    (h : ctx.scopes = l) : ctx = ⟨l⟩ := by
  cases ctx
  cases h
  rfl

theorem check_binary_scopes (s : List Nat) (rest : List (List Nat))
    (id : Nat) (op : BinOp) (lty rty : Ty) :
    ∃ s2, ((Context.check_binary ⟨s :: rest⟩ id op lty rty).1).scopes = s2 :: rest := by
  match harr : arith_rule_for op lty rty with
  | none =>
    refine ⟨s, ?_⟩
    simp [Context.check_binary, harr]
  | some r =>
    refine ⟨id :: s, ?_⟩
    simp only [Context.check_binary, harr]
    split <;> rfl

theorem check_negate_scopes (s : List Nat) (rest : List (List Nat))
    (id : Nat) (argTy : Ty) :
    ∃ s2, ((Context.check_negate ⟨s :: rest⟩ id argTy).1).scopes = s2 :: rest := by
  match argTy with
  | .int t =>
    by_cases hs : t.signed
    · refine ⟨id :: s, ?_⟩
      simp only [Context.check_negate, hs, if_true]
      split <;> rfl
    · refine ⟨s, ?_⟩
      simp [Context.check_negate, hs]
  | .float => exact ⟨s, rfl⟩
  | .boolean => exact ⟨s, rfl⟩
  | .unresolved => exact ⟨s, rfl⟩

theorem check_expr_scopes (st : Operators) (e : Expr) (s : List Nat)
    (rest : List (List Nat)) (h : st.arithmetic_context = ⟨s :: rest⟩) :
    ∃ s2, (st.check_expr e).1.arithmetic_context = ⟨s2 :: rest⟩ ∧
      (st.check_expr e).1.verbose_bit_mask_threshold = st.verbose_bit_mask_threshold := by
  cases e with
  | binary i op lhs rhs =>
    obtain ⟨s2, h2⟩ := check_binary_scopes s rest i.id op lhs.ty rhs.ty
    refine ⟨s2, ?_, rfl⟩
    simp only [Operators.check_expr, h]
    exact Context.eq_mk_of_scopes h2
  | assignOp i op lhs rhs =>
    obtain ⟨s2, h2⟩ := check_binary_scopes s rest i.id op lhs.ty rhs.ty
    refine ⟨s2, ?_, rfl⟩
    simp only [Operators.check_expr, h]
    exact Context.eq_mk_of_scopes h2
  | unaryNeg i arg =>
    obtain ⟨s2, h2⟩ := check_negate_scopes s rest i.id arg.ty
    refine ⟨s2, ?_, rfl⟩
    simp only [Operators.check_expr, h]
    exact Context.eq_mk_of_scopes h2
  | assign i lhs rhs => exact ⟨s, h, rfl⟩
  | lit i v => exact ⟨s, h, rfl⟩
  | pathVar i n => exact ⟨s, h, rfl⟩

theorem check_expr_post_scopes (st : Operators) (e : Expr) (s : List Nat)
    (rest : List (List Nat)) (h : st.arithmetic_context = ⟨s :: rest⟩) :
    (st.check_expr_post e).arithmetic_context = ⟨s.erase e.nodeId :: rest⟩ ∧
    (st.check_expr_post e).verbose_bit_mask_threshold = st.verbose_bit_mask_threshold := by
  constructor
  · simp only [Operators.check_expr_post, h, Context.expr_post]
  · rfl

/-- The walk never touches any scope other than the innermost one: the
tail of the scope stack, and the configured threshold, come out exactly as
they went in. -/
theorem walk_scopes (e : Expr) :
    ∀ (st : Operators) (s : List Nat) (rest : List (List Nat)),
      st.arithmetic_context = ⟨s :: rest⟩ →
      ∃ s2, (walk st e).1.arithmetic_context = ⟨s2 :: rest⟩ ∧
        (walk st e).1.verbose_bit_mask_threshold = st.verbose_bit_mask_threshold := by
  induction e with
  | binary i op l r ihl ihr =>
    intro st s rest h
    obtain ⟨s1, h1, t1⟩ := check_expr_scopes st (.binary i op l r) s rest h
    obtain ⟨s2, h2, t2⟩ := ihl (st.check_expr (.binary i op l r)).1 s1 rest h1
    obtain ⟨s3, h3, t3⟩ :=
      ihr (walk (st.check_expr (.binary i op l r)).1 l).1 s2 rest h2
    refine ⟨s3.erase (Expr.binary i op l r).nodeId, ?_, ?_⟩
    · simp only [walk]
      exact (check_expr_post_scopes _ _ s3 rest h3).1
    · simp only [walk]
      rw [(check_expr_post_scopes _ _ s3 rest h3).2, t3, t2, t1]
  | assign i l r ihl ihr =>
    intro st s rest h
    obtain ⟨s1, h1, t1⟩ := check_expr_scopes st (.assign i l r) s rest h
    obtain ⟨s2, h2, t2⟩ := ihl (st.check_expr (.assign i l r)).1 s1 rest h1
    obtain ⟨s3, h3, t3⟩ := ihr (walk (st.check_expr (.assign i l r)).1 l).1 s2 rest h2
    refine ⟨s3.erase (Expr.assign i l r).nodeId, ?_, ?_⟩
    · simp only [walk]
      exact (check_expr_post_scopes _ _ s3 rest h3).1
    · simp only [walk]
      rw [(check_expr_post_scopes _ _ s3 rest h3).2, t3, t2, t1]
  | assignOp i op l r ihl ihr =>
    intro st s rest h
    obtain ⟨s1, h1, t1⟩ := check_expr_scopes st (.assignOp i op l r) s rest h
    obtain ⟨s2, h2, t2⟩ := ihl (st.check_expr (.assignOp i op l r)).1 s1 rest h1
    obtain ⟨s3, h3, t3⟩ :=
      ihr (walk (st.check_expr (.assignOp i op l r)).1 l).1 s2 rest h2
    refine ⟨s3.erase (Expr.assignOp i op l r).nodeId, ?_, ?_⟩
    · simp only [walk]
      exact (check_expr_post_scopes _ _ s3 rest h3).1
    · simp only [walk]
      rw [(check_expr_post_scopes _ _ s3 rest h3).2, t3, t2, t1]
  | unaryNeg i a iha =>
    intro st s rest h
    obtain ⟨s1, h1, t1⟩ := check_expr_scopes st (.unaryNeg i a) s rest h
    obtain ⟨s2, h2, t2⟩ := iha (st.check_expr (.unaryNeg i a)).1 s1 rest h1
    refine ⟨s2.erase (Expr.unaryNeg i a).nodeId, ?_, ?_⟩
    · simp only [walk]
      exact (check_expr_post_scopes _ _ s2 rest h2).1
    · simp only [walk]
      rw [(check_expr_post_scopes _ _ s2 rest h2).2, t2, t1]
  | lit i v =>
    intro st s rest h
    obtain ⟨s1, h1, t1⟩ := check_expr_scopes st (.lit i v) s rest h
    refine ⟨s1.erase (Expr.lit i v).nodeId, ?_, ?_⟩
    · simp only [walk]
      exact (check_expr_post_scopes _ _ s1 rest h1).1
    · simp only [walk]
      rw [(check_expr_post_scopes _ _ s1 rest h1).2, t1]
  | pathVar i n =>
    intro st s rest h
    obtain ⟨s1, h1, t1⟩ := check_expr_scopes st (.pathVar i n) s rest h
    refine ⟨s1.erase (Expr.pathVar i n).nodeId, ?_, ?_⟩
    · simp only [walk]
      exact (check_expr_post_scopes _ _ s1 rest h1).1
    · simp only [walk]
      rw [(check_expr_post_scopes _ _ s1 rest h1).2, t1]

/-- Analyzing one body end to end restores exactly the state from before
entering it: `check_body` pushes one scope, the walk stays inside that
scope, and `check_body_post` discards it unconditionally. -/
theorem run_body_state (st : Operators) (b : Expr) : (run_body st b).1 = st := by
  obtain ⟨⟨sc⟩, thr⟩ := st
  obtain ⟨s2, h2, t2⟩ :=
    walk_scopes b (Operators.check_body ⟨⟨sc⟩, thr⟩) [] sc rfl
  simp only [run_body, Operators.check_body_post, Context.body_post, h2, t2]
  rfl

/-- C9: Exiting a function body discards that body's entire overflow-risk
tracking state unconditionally, so for any two function bodies analyzed in
sequence from any engine state, the diagnostics produced for the second
body are identical to those produced when it is analyzed alone from that
state: no node-identifier or suppression state from one body is visible
while analyzing another. -/
theorem c9_body_isolation (st : Operators) (b1 b2 : Expr) :
    (run_body (run_body st b1).1 b2).2 = (run_body st b2).2 := by
  rw [run_body_state]

/-- Witness for C7 at the documentation's own example `x | 1 > 3` (with
operand value 5): the comparison equals `x > 3` directly, and 3 is one
less than a power of two. -/
theorem c7_ineffective_bit_mask_witness :
    evalCmpNat .gt (evalBitOpNat .bitOr 5 1) 3 = evalCmpNat .gt 5 3 ∧
    (isPow2 3 || isPow2 4) = true :=
  c7_ineffective_bit_mask .bitOr .gt 1 3 5 (by decide)

/-! ### Which rules each analyzer can emit -/

theorem arith_rule_for_cases (op : BinOp) (lty rty : Ty) (r : Rule)
    (h : arith_rule_for op lty rty = some r) :
    r = .integerArithmetic ∨ r = .floatArithmetic := by
  unfold arith_rule_for at h
  split at h
  · split at h
    · exact Or.inl (Option.some.inj h).symm
    · exact Or.inr (Option.some.inj h).symm
    · exact Option.noConfusion h
  · exact Option.noConfusion h

theorem check_binary_rules (st : Context) (id : Nat) (op : BinOp) (lty rty : Ty) :
    ∀ d ∈ (st.check_binary id op lty rty).2,
      d.rule = .integerArithmetic ∨ d.rule = .floatArithmetic := by
  intro d hd
  unfold Context.check_binary at hd
  split at hd
  · simp at hd
  · rename_i r harr
    split at hd
    · simp at hd
    · split at hd
      · simp at hd
        rw [hd]
        exact arith_rule_for_cases op lty rty r harr
      · simp at hd

theorem bit_mask_check_rules (eId : Nat) (op : BinOp) (lhs rhs : Expr) :
    ∀ d ∈ bit_mask_check eId op lhs rhs,
      d.rule = .badBitMask ∨ d.rule = .ineffectiveBitMask := by
  intro d hd
  unfold bit_mask_check at hd
  split at hd
  · split at hd
    · split at hd
      · rw [List.mem_append] at hd
        cases hd with
        | inl h1 =>
          split at h1
          · simp at h1
            exact Or.inl (by rw [h1])
          · simp at h1
        | inr h2 =>
          split at h2
          · simp at h2
            exact Or.inr (by rw [h2])
          · simp at h2
      · simp at hd
    · simp at hd
  · simp at hd

theorem verbose_bit_mask_check_rules (threshold eId : Nat) (op : BinOp)
    (lhs rhs : Expr) :
    ∀ d ∈ verbose_bit_mask_check threshold eId op lhs rhs,
      d.rule = .verboseBitMask := by
  intro d hd
  unfold verbose_bit_mask_check at hd
  split at hd
  · split at hd
    · split at hd
      · split at hd
        · simp at hd
          rw [hd]
        · simp at hd
      · simp at hd
    · simp at hd
  · simp at hd

theorem double_comparison_diags_rules (eId : Nat) (conn : BinOp) (lhs rhs : Expr) :
    ∀ d ∈ double_comparison_diags eId conn lhs rhs,
      d.rule = .doubleComparisons := by
  intro d hd
  unfold double_comparison_diags at hd
  split at hd
  · simp at hd
    rw [hd]
  · simp at hd

/-- C10: For every binary expression whose span originates from macro
expansion, the extreme-value comparison analyzer is skipped — the
dispatcher's output is exactly the output of the arithmetic, bit-mask,
verbose-bit-mask and double-comparison checks, which are still applied —
and no ABSURD_EXTREME_COMPARISONS diagnostic is emitted for that node. -/
theorem c10_expansion_skips_extreme_check (st : Operators) (i : NodeInfo)
    (op : BinOp) (lhs rhs : Expr) (hexp : i.fromExpansion = true) :
    (st.check_expr (.binary i op lhs rhs)).2 =
      (st.arithmetic_context.check_binary i.id op lhs.ty rhs.ty).2 ++
        bit_mask_check i.id op lhs rhs ++
        verbose_bit_mask_check st.verbose_bit_mask_threshold i.id op lhs rhs ++
        double_comparison_diags i.id op lhs rhs ∧
    ∀ d ∈ (st.check_expr (.binary i op lhs rhs)).2,
      d.rule ≠ .absurdExtremeComparisons := by
  have heq : (st.check_expr (.binary i op lhs rhs)).2 =
      (st.arithmetic_context.check_binary i.id op lhs.ty rhs.ty).2 ++
        bit_mask_check i.id op lhs rhs ++
        verbose_bit_mask_check st.verbose_bit_mask_threshold i.id op lhs rhs ++
        double_comparison_diags i.id op lhs rhs := by
    simp [Operators.check_expr, hexp]
  refine ⟨heq, ?_⟩
  intro d hd
  rw [heq] at hd
  simp only [List.mem_append] at hd
  rcases hd with ((hd | hd) | hd) | hd
  · rcases check_binary_rules _ _ _ _ _ d hd with h | h <;> simp [h]
  · rcases bit_mask_check_rules _ _ _ _ d hd with h | h <;> simp [h]
  · have h := verbose_bit_mask_check_rules _ _ _ _ _ d hd
    simp [h]
  · have h := double_comparison_diags_rules _ _ _ _ d hd
    simp [h]

/-- Witness for C10 on the macro-expanded comparison `0 <= x` at 8-bit
unsigned type: without the expansion guard the extreme-value analyzer
would flag it always-true, but the dispatcher emits only the other four
checks' diagnostics and none of them is ABSURD_EXTREME_COMPARISONS. -/
theorem c10_expansion_skips_extreme_check_witness :
    ((Operators.new 4).check_expr (.binary ⟨70, u8, true⟩ .le zero8 varX8)).2 =
      ((Operators.new 4).arithmetic_context.check_binary 70 .le zero8.ty varX8.ty).2 ++
        bit_mask_check 70 .le zero8 varX8 ++
        verbose_bit_mask_check 4 70 .le zero8 varX8 ++
        double_comparison_diags 70 .le zero8 varX8 ∧
    ∀ d ∈ ((Operators.new 4).check_expr (.binary ⟨70, u8, true⟩ .le zero8 varX8)).2,
      d.rule ≠ .absurdExtremeComparisons :=
  c10_expansion_skips_extreme_check (Operators.new 4) ⟨70, u8, true⟩ .le zero8 varX8 rfl

end ClippyOperators
